import Mathlib

/-!
Shallow embedding of the Attendance Integrity & Audit subsystem of the
Student-Management-System-Django repository (src/core/models.py,
src/core/views.py, src/core/utils.py, src/core/forms.py, src/core/admin.py).

Students, teachers, courses and users are identified by natural-number ids.
Calendar dates are integers (a day number); `today` is passed explicitly where
the source reads `timezone.now().date()`.  The relational store is a `DB`
value: the list of Attendance rows (each with a synthetic primary key, as the
ORM assigns one) and the list of AuditLog entries, newest first (the model's
`Meta.ordering = ['-timestamp']`).
-/

/-- A course as the views see it: its id and its enrolled students
(`Course.students`, a many-to-many set, queried ordered by roll number). -/
structure Course where
  id : Nat
  students : List Nat
deriving Repr, DecidableEq

/-- One `Attendance` row: (student, course, date) plus boolean status
(`True` = present) and who marked it, with the ORM's primary key. -/
structure AttRow where
  pk : Nat
  student : Nat
  course : Nat
  date : Int
  status : Bool
  markedBy : Option Nat
deriving Repr, DecidableEq

/-- The `AuditLog.ACTION_CHOICES` values. -/
inductive AuditAction where
  | create
  | update
  | delete
deriving Repr, DecidableEq

/-- One `AuditLog` row: nullable reference to an Attendance row (by pk),
action, acting user, denormalized student/course/date, old and new status. -/
structure AuditEntry where
  attendance : Option Nat
  action : AuditAction
  user : Option Nat
  student : Option Nat
  course : Option Nat
  date : Option Int
  old_status : Option Bool
  new_status : Option Bool
deriving Repr, DecidableEq

/-- The record store: Attendance rows, the next primary key the store will
assign, and the AuditLog entries (newest first). -/
structure DB where
  rows : List AttRow
  nextPk : Nat
  logs : List AuditEntry
deriving Repr, DecidableEq

def DB.empty : DB := ⟨[], 0, []⟩

/-- `(student, course, date)` key match for a row. -/
def AttRow.keyMatch (r : AttRow) (s c : Nat) (d : Int) : Bool :=
  r.student == s && r.course == c && r.date == d

/-- Validation errors raised by the source's checks (`ValidationError`
messages in models.py / forms.py), plus the induced storage failure used to
model a write or audit insert failing inside the bulk transaction. -/
inductive VErr where
  | notEnrolled
  | futureDate
  | duplicateRecord
  | txnFailed
deriving Repr, DecidableEq

/-- `Attendance.clean` (models.py): enrollment check first (raising, so the
date check is not reached when it fails), then the no-future-date check.
`date` is `none` when the field was excluded by an earlier form error. -/
def Attendance.clean (c : Course) (student : Nat) (date : Option Int)
    (today : Int) : List VErr :=
  if student ∈ c.students then
    match date with
    | some d => if d > today then [VErr.futureDate] else []
    | none => []
  else [VErr.notEnrolled]

/-- Django's `validate_unique` for `unique_together = (student, course, date)`:
an error when some other row (pk different from `selfPk`) holds the key. -/
def validate_unique (db : DB) (selfPk : Option Nat) (s c : Nat) (d : Int) :
    List VErr :=
  if db.rows.any (fun r => r.keyMatch s c d && selfPk != some r.pk) then
    [VErr.duplicateRecord]
  else []

/-- `log_attendance_change` (utils.py): append one AuditLog entry, newest
first, denormalizing student/course/date from the attendance row when it is
given (`attendance.student if attendance else None`, etc.). -/
def log_attendance_change (action : AuditAction) (attendance : Option AttRow)
    (user : Option Nat) (old_status new_status : Option Bool) (db : DB) : DB :=
  { db with logs :=
      { attendance := attendance.map (fun a => a.pk)
        action := action
        user := user
        student := attendance.map (fun a => a.student)
        course := attendance.map (fun a => a.course)
        date := attendance.map (fun a => a.date)
        old_status := old_status
        new_status := new_status } :: db.logs }

/-- Round-half-to-even of a rational to an integer (the semantics of
Python's `round` on the exact quotient). -/
def roundHalfEven (q : Rat) : Int :=
  let f := ⌊q⌋
  let frac := q - f
  if frac < 1/2 then f
  else if 1/2 < frac then f + 1
  else if f % 2 = 0 then f else f + 1

/-- Python's `round(x, 2)` on the exact rational value. -/
def round2 (q : Rat) : Rat := (roundHalfEven (q * 100) : Rat) / 100

/-- `calculate_attendance_percentage` (utils.py): `0.0` when the pair has no
rows, else `round(present / total * 100, 2)` over that pair's rows. -/
def calculate_attendance_percentage (student course : Nat) (db : DB) : Rat :=
  let total_records := (db.rows.filter
    (fun r => r.student == student && r.course == course)).length
  if total_records = 0 then 0
  else
    let present_count := (db.rows.filter
      (fun r => r.student == student && r.course == course && r.status)).length
    round2 ((present_count : Rat) / (total_records : Rat) * 100)

/-- The dictionary returned by `get_course_attendance_stats` (utils.py). -/
structure CourseStats where
  total_classes : Nat
  total_records : Nat
  present_count : Nat
  absent_count : Nat
  enrolled_students : Nat
  average_attendance : Rat
deriving Repr, DecidableEq

/-- `get_course_attendance_stats` (utils.py): distinct dates with any row for
the course, row counts by status, enrolled-student count, and the zero-guarded
course-wide percentage. -/
def get_course_attendance_stats (c : Course) (db : DB) : CourseStats :=
  let total_classes := ((db.rows.filter (fun r => r.course == c.id)).map
    (fun r => r.date)).dedup.length
  let total_records := (db.rows.filter (fun r => r.course == c.id)).length
  let present_count :=
    (db.rows.filter (fun r => r.course == c.id && r.status)).length
  let absent_count :=
    (db.rows.filter (fun r => r.course == c.id && !r.status)).length
  let enrolled_students := c.students.length
  let avg := if total_records > 0 then
      round2 ((present_count : Rat) / (total_records : Rat) * 100)
    else 0
  ⟨total_classes, total_records, present_count, absent_count,
    enrolled_students, avg⟩

/-- `Grade.calculate_grade` (models.py): letter from `score / max_score * 100`
when `max_score > 0`, the empty string otherwise. -/
def calculate_grade (score max_score : Rat) : String :=
  if max_score > 0 then
    let percentage := score / max_score * 100
    if percentage ≥ 90 then "A"
    else if percentage ≥ 80 then "B"
    else if percentage ≥ 70 then "C"
    else if percentage ≥ 60 then "D"
    else "F"
  else ""

/-- Django's `update_or_create` keyed on (student, course, date) with
`defaults = {status, marked_by}` as `bulk_attendance` calls it (views.py),
going through the overridden `Attendance.save` and hence `full_clean`
(model `clean` plus `validate_unique`).  Returns the new store, the saved
row and the `created` flag, or the first validation error raised. -/
def update_or_create (c : Course) (s : Nat) (d : Int) (status : Bool)
    (user : Nat) (today : Int) (db : DB) :
    Except VErr (DB × AttRow × Bool) :=
  match db.rows.find? (fun r => r.keyMatch s c.id d) with
  | some r0 =>
      match Attendance.clean c s (some d) today ++
          validate_unique db (some r0.pk) s c.id d with
      | [] =>
          let r1 := { r0 with status := status, markedBy := some user }
          Except.ok
            ({ db with rows :=
                db.rows.map (fun x => if x.pk == r0.pk then r1 else x) },
              r1, false)
      | e :: _ => Except.error e
  | none =>
      match Attendance.clean c s (some d) today ++
          validate_unique db none s c.id d with
      | [] =>
          let r1 : AttRow := ⟨db.nextPk, s, c.id, d, status, some user⟩
          Except.ok
            ({ db with rows := db.rows ++ [r1], nextPk := db.nextPk + 1 },
              r1, true)
      | e :: _ => Except.error e

/-- The per-student body of the `bulk_attendance` POST loop (views.py):
`status_{id}` checkbox membership, `update_or_create`, the view's
`old_status` lookup (which filters the key and excludes the freshly saved
row's pk), and `log_attendance_change`.  `failAt = some i` makes the store
raise while persisting/auditing the i-th student, modelling the spec's
induced mid-roster failure. -/
def bulk_attendance_loop (c : Course) (d : Int) (submitted : List Nat)
    (user : Nat) (today : Int) (failAt : Option Nat) :
    List Nat → Nat → DB → Except VErr DB
  | [], _, db => Except.ok db
  | s :: rest, i, db =>
      if failAt == some i then Except.error VErr.txnFailed
      else
        let status := submitted.contains s
        match update_or_create c s d status user today db with
        | Except.error e => Except.error e
        | Except.ok (db1, att, created) =>
            let action := if created then AuditAction.create
              else AuditAction.update
            let prior := db1.rows.find?
              (fun r => r.keyMatch s c.id d && r.pk != att.pk)
            let old_status := prior.map (fun r => r.status)
            let db2 := log_attendance_change action (some att) (some user)
              old_status (some status) db1
            bulk_attendance_loop c d submitted user today failAt rest (i + 1) db2

/-- The POST branch of `bulk_attendance` (views.py): the bulk form's
`clean_date` check, then, inside `with transaction.atomic()`, one upsert plus
one audit entry per enrolled student, iterating the course roster ordered by
roll number; any exception aborts the transaction, rolling the store back to
its pre-call state, while success returns the marked-student count. -/
def bulk_attendance (c : Course) (d : Int) (submitted : List Nat)
    (user : Nat) (today : Int) (failAt : Option Nat) (db : DB) :
    DB × Except VErr Nat :=
  if d > today then (db, Except.error VErr.futureDate)
  else
    match bulk_attendance_loop c d submitted user today failAt c.students 0 db with
    | Except.ok db1 => (db1, Except.ok c.students.length)
    | Except.error e => (db, Except.error e)

/-- The `mark_attendance` view (views.py) with the validation run by
`AttendanceForm` and the overridden `Attendance.save`: the form's
`clean_date`, the model `clean` (enrollment first, then future date — with
the date treated as absent when the form already rejected it), and
`validate_unique` for the (student, course, date) key; on success one row is
inserted and one CREATE audit entry written (`old_status` stays at its `None`
default). -/
def mark_attendance (c : Course) (s : Nat) (d : Int) (status : Bool)
    (user : Nat) (today : Int) (db : DB) : DB × List VErr :=
  let formDateErrs := if d > today then [VErr.futureDate] else []
  let instDate : Option Int := if d > today then none else some d
  let modelErrs := Attendance.clean c s instDate today
  let uniqueErrs := if d > today then [] else validate_unique db none s c.id d
  match formDateErrs ++ modelErrs ++ uniqueErrs with
  | [] =>
      let row : AttRow := ⟨db.nextPk, s, c.id, d, status, some user⟩
      let db1 : DB :=
        { db with rows := db.rows ++ [row], nextPk := db.nextPk + 1 }
      (log_attendance_change AuditAction.create (some row) (some user)
        none (some status) db1, [])
  | errs => (db, errs)

/-- Saving an existing Attendance row from the admin change form
(`AttendanceAdmin`, admin.py): the edited fields go through
`Attendance.save` → `full_clean` (model `clean` plus `validate_unique`
excluding the row itself) and on success the row is updated in place.
No audit entry is written on this path. -/
def admin_save_attendance (c : Course) (pk : Nat) (s : Nat) (d : Int)
    (status : Bool) (today : Int) (db : DB) : DB × List VErr :=
  match Attendance.clean c s (some d) today ++
      validate_unique db (some pk) s c.id d with
  | [] =>
      ({ db with rows := db.rows.map (fun r =>
          if r.pk == pk then
            { r with student := s, course := c.id, date := d, status := status }
          else r) }, [])
  | errs => (db, errs)

/-- Deleting an Attendance row.  `AuditLog.attendance` is declared with
`on_delete=models.CASCADE` (models.py), so the delete cascades to every
AuditLog entry referencing the row. -/
def delete_attendance (pk : Nat) (db : DB) : DB :=
  { db with rows := db.rows.filter (fun r => r.pk != pk),
            logs := db.logs.filter (fun e => e.attendance != some pk) }

/-- The storage invariant of C1: at most one Attendance row per
(student, course, date). -/
def uniqueKeys (db : DB) : Prop :=
  ∀ r1 ∈ db.rows, ∀ r2 ∈ db.rows,
    r1.student = r2.student → r1.course = r2.course → r1.date = r2.date →
      r1 = r2

/-- Store well-formedness maintained by the ORM: primary keys are pairwise
distinct and below the next key the store will assign. -/
def DB.WF (db : DB) : Prop :=
  (∀ r ∈ db.rows, r.pk < db.nextPk) ∧
    db.rows.Pairwise (fun a b => a.pk ≠ b.pk)

/-- One attendance-writing operation of the application: a single mark, a
bulk mark, or an admin edit. -/
inductive Step : DB → DB → Prop where
  | mark (c : Course) (s : Nat) (d : Int) (status : Bool) (user : Nat)
      (today : Int) (db : DB) :
      Step db (mark_attendance c s d status user today db).1
  | bulk (c : Course) (d : Int) (submitted : List Nat) (user : Nat)
      (today : Int) (failAt : Option Nat) (db : DB) :
      Step db (bulk_attendance c d submitted user today failAt db).1
  | adminEdit (c : Course) (pk : Nat) (s : Nat) (d : Int) (status : Bool)
      (today : Int) (db : DB) :
      Step db (admin_save_attendance c pk s d status today db).1

/-- The spec's scenario course: two students with rolls 1 and 2. -/
def scenarioCourse : Course := ⟨7, [1, 2]⟩

/-- The spec's scenario store: one date, student 1 present, student 2 absent. -/
def scenarioDB : DB :=
  ⟨[⟨0, 1, 7, 10, true, some 5⟩, ⟨1, 2, 7, 10, false, some 5⟩], 2, []⟩

lemma roundHalfEven_intCast (n : Int) : roundHalfEven (n : Rat) = n := by
  simp [roundHalfEven, Int.floor_intCast]

lemma round2_intCast (n : Int) : round2 (n : Rat) = n := by
  have h : ((n : Rat) * 100) = ((n * 100 : Int) : Rat) := by push_cast; ring
  rw [round2, h, roundHalfEven_intCast]
  push_cast
  field_simp

/-- C5: `attendancePercentage(student, course)` is `0.0` when the pair has no
Attendance rows, and otherwise `round(present_count / total_count * 100, 2)`
with both counts ranging over all Attendance rows for that pair. -/
theorem attendancePercentage_correct (s c : Nat) (db : DB) :
    calculate_attendance_percentage s c db =
      (if db.rows.countP (fun r => r.student == s && r.course == c) = 0 then 0
       else round2
        ((db.rows.countP (fun r => r.student == s && r.course == c && r.status) : Rat) /
         (db.rows.countP (fun r => r.student == s && r.course == c) : Rat) * 100)) := by
  simp [calculate_attendance_percentage, List.countP_eq_length_filter]

/-- C6: `courseStats` reports the number of distinct dates having any row for
the course, the counts of all/present/absent rows for the course, the size of
the course's student set, and the course-wide ratio
`round(present / total * 100, 2)` (0 when there are no rows). -/
theorem courseStats_correct (c : Course) (db : DB) (hs : c.students.Nodup) :
    get_course_attendance_stats c db =
      { total_classes :=
          ((db.rows.filter (fun r => r.course == c.id)).map
            (fun r => r.date)).toFinset.card
        total_records := db.rows.countP (fun r => r.course == c.id)
        present_count := db.rows.countP (fun r => r.course == c.id && r.status)
        absent_count := db.rows.countP (fun r => r.course == c.id && !r.status)
        enrolled_students := c.students.toFinset.card
        average_attendance :=
          if db.rows.countP (fun r => r.course == c.id) = 0 then 0
          else round2
            ((db.rows.countP (fun r => r.course == c.id && r.status) : Rat) /
             (db.rows.countP (fun r => r.course == c.id) : Rat) * 100) } := by
  have hcard : c.students.toFinset.card = c.students.length := by
    rw [List.card_toFinset, List.dedup_eq_self.mpr hs]
  simp only [get_course_attendance_stats, List.card_toFinset,
    List.countP_eq_length_filter, hcard]
  rcases Nat.eq_zero_or_pos (db.rows.filter (fun r => r.course == c.id)).length
    with h0 | hpos
  · simp [h0]
  · simp [Nat.pos_iff_ne_zero.mp hpos, hpos]

/-- Witness for C6 at the spec's scenario: course with students [1, 2], one
date, student 1 present and student 2 absent, giving total_records = 2,
present_count = 1, absent_count = 1, average 50. -/
theorem courseStats_correct_witness :
    scenarioCourse.students.Nodup ∧
      get_course_attendance_stats scenarioCourse scenarioDB =
        ⟨1, 2, 1, 1, 2, 50⟩ := by
  refine ⟨by decide, ?_⟩
  rw [courseStats_correct scenarioCourse scenarioDB (by decide)]
  simp only [CourseStats.mk.injEq]
  refine ⟨by decide, by decide, by decide, by decide, by decide, ?_⟩
  have h1 : List.countP (fun r => r.course == scenarioCourse.id && r.status)
      scenarioDB.rows = 1 := by decide
  have h2 : List.countP (fun r => r.course == scenarioCourse.id)
      scenarioDB.rows = 2 := by decide
  rw [h1, h2, if_neg (by decide)]
  have h50 : ((1 : Nat) : Rat) / ((2 : Nat) : Rat) * 100 = ((50 : Int) : Rat) := by
    norm_num
  rw [h50, round2_intCast]
  norm_num

/-- C9: `calculateGrade` is the empty string when `max_score ≤ 0` and
otherwise the letter given by the thresholds ≥90→A, ≥80→B, ≥70→C, ≥60→D,
else F on `score / max_score * 100`; in particular grade(92,100) = "A",
grade(45,100) = "F", grade(0,0) = "". -/
theorem calculateGrade_correct :
    (∀ score max_score : Rat, calculate_grade score max_score =
      (if max_score ≤ 0 then ""
       else if score / max_score * 100 ≥ 90 then "A"
       else if score / max_score * 100 ≥ 80 then "B"
       else if score / max_score * 100 ≥ 70 then "C"
       else if score / max_score * 100 ≥ 60 then "D"
       else "F")) ∧
    calculate_grade 92 100 = "A" ∧
    calculate_grade 45 100 = "F" ∧
    calculate_grade 0 0 = "" := by
  refine ⟨fun score max_score => ?_, by norm_num [calculate_grade],
    by norm_num [calculate_grade], by norm_num [calculate_grade]⟩
  rcases le_or_lt max_score 0 with h | h
  · simp [calculate_grade, not_lt.mpr h, h]
  · simp [calculate_grade, h, not_le.mpr h]

/-- C3 (failing evaluation): re-submitting a bulk mark that flips student 1
from present to absent persists the flip, but the UPDATE audit entry records
`old_status = None` rather than the prior status `true` — the view's
prior-status query runs after the upsert and excludes the saved row's own
pk, so under the uniqueness constraint it never finds anything. -/
theorem bulk_update_old_status_is_none :
    (bulk_attendance ⟨7, [1]⟩ 10 [] 5 10 none
        ⟨[⟨0, 1, 7, 10, true, some 5⟩], 1, []⟩).1.rows =
      [⟨0, 1, 7, 10, false, some 5⟩] ∧
    (bulk_attendance ⟨7, [1]⟩ 10 [] 5 10 none
        ⟨[⟨0, 1, 7, 10, true, some 5⟩], 1, []⟩).1.logs.head? =
      some ⟨some 0, AuditAction.update, some 5, some 1, some 7, some 10,
        none, some false⟩ := by
  decide

/-- C4 (failing evaluation): a single mark creates row pk 0 together with its
CREATE audit entry; deleting the row then cascades to the entry
(`on_delete=CASCADE`), leaving the audit log empty instead of retaining the
entry with its attendance reference nulled. -/
theorem delete_cascades_audit_log :
    ((mark_attendance ⟨7, [1]⟩ 1 10 true 5 10 DB.empty).1).logs.length = 1 ∧
    (delete_attendance 0
        (mark_attendance ⟨7, [1]⟩ 1 10 true 5 10 DB.empty).1).logs = [] := by
  decide

/-- C7: marking attendance for a student who is not a member of the course's
student set is rejected with the NotEnrolled validation error and no
Attendance row is persisted. -/
theorem notEnrolled_rejected (c : Course) (s : Nat) (d : Int) (status : Bool)
    (user : Nat) (today : Int) (db : DB) (hs : s ∉ c.students) :
    VErr.notEnrolled ∈ (mark_attendance c s d status user today db).2 ∧
      (mark_attendance c s d status user today db).1 = db := by
  rcases lt_or_le today d with h | h
  · simp [mark_attendance, Attendance.clean, hs, h]
  · simp [mark_attendance, Attendance.clean, hs, not_lt.mpr h]

/-- Witness for C7: student 2 is not enrolled in a course whose roster is
[1]; the mark is rejected and the empty store is unchanged. -/
theorem notEnrolled_rejected_witness :
    (2 : Nat) ∉ (⟨7, [1]⟩ : Course).students ∧
      (VErr.notEnrolled ∈ (mark_attendance ⟨7, [1]⟩ 2 10 true 5 10 DB.empty).2 ∧
        (mark_attendance ⟨7, [1]⟩ 2 10 true 5 10 DB.empty).1 = DB.empty) :=
  ⟨by decide, notEnrolled_rejected ⟨7, [1]⟩ 2 10 true 5 10 DB.empty (by decide)⟩

/-- C8: marking attendance — single or bulk — with a date strictly after
today is rejected with the FutureDate validation error and no Attendance row
is persisted. -/
theorem futureDate_rejected (c : Course) (s : Nat) (d : Int) (status : Bool)
    (user : Nat) (today : Int) (db : DB) (submitted : List Nat)
    (failAt : Option Nat) (hd : today < d) :
    (VErr.futureDate ∈ (mark_attendance c s d status user today db).2 ∧
      (mark_attendance c s d status user today db).1 = db) ∧
    ((bulk_attendance c d submitted user today failAt db).2 =
        Except.error VErr.futureDate ∧
      (bulk_attendance c d submitted user today failAt db).1 = db) := by
  refine ⟨?_, by simp [bulk_attendance, hd]⟩
  by_cases hmem : s ∈ c.students
  · simp [mark_attendance, Attendance.clean, hd, hmem]
  · simp [mark_attendance, Attendance.clean, hd, hmem]

/-- Witness for C8: date 11 is strictly after today = 10; both the single
mark and the bulk mark are rejected and the empty store is unchanged. -/
theorem futureDate_rejected_witness :
    ((10 : Int) < 11) ∧
      ((VErr.futureDate ∈ (mark_attendance ⟨7, [1]⟩ 1 11 true 5 10 DB.empty).2 ∧
        (mark_attendance ⟨7, [1]⟩ 1 11 true 5 10 DB.empty).1 = DB.empty) ∧
       ((bulk_attendance ⟨7, [1]⟩ 11 [1] 5 10 none DB.empty).2 =
          Except.error VErr.futureDate ∧
        (bulk_attendance ⟨7, [1]⟩ 11 [1] 5 10 none DB.empty).1 = DB.empty)) :=
  ⟨by decide,
    futureDate_rejected ⟨7, [1]⟩ 1 11 true 5 10 DB.empty [1] none (by decide)⟩

lemma keyMatch_true {r : AttRow} {s c : Nat} {d : Int} :
    r.keyMatch s c d = true ↔ r.student = s ∧ r.course = c ∧ r.date = d := by
  simp [AttRow.keyMatch, and_assoc]

lemma keyMatch_false {r : AttRow} {s c : Nat} {d : Int} :
    r.keyMatch s c d = false ↔ ¬(r.student = s ∧ r.course = c ∧ r.date = d) := by
  rw [Bool.eq_false_iff, Ne, keyMatch_true]

lemma WF.rows_nodup {db : DB} (h : db.WF) : db.rows.Nodup :=
  h.2.imp (fun hne heq => hne (congrArg AttRow.pk heq))

lemma WF.pk_inj {db : DB} (h : db.WF) {r1 r2 : AttRow} (h1 : r1 ∈ db.rows)
    (h2 : r2 ∈ db.rows) (hpk : r1.pk = r2.pk) : r1 = r2 := by
  by_cases heq : r1 = r2
  · exact heq
  · have hsym : Symmetric (fun (a b : AttRow) => a.pk ≠ b.pk) := by
      intro a b hab hba
      exact hab hba.symm
    exact absurd hpk (h.2.forall hsym h1 h2 heq)

lemma count_key_le_one {db : DB} (hwf : db.WF) (hu : uniqueKeys db)
    (s cId : Nat) (d : Int) :
    (db.rows.filter (fun r => r.keyMatch s cId d)).length ≤ 1 := by
  have hnd : (db.rows.filter (fun r => r.keyMatch s cId d)).Nodup :=
    (WF.rows_nodup hwf).filter _
  have hall : ∀ x ∈ db.rows.filter (fun r => r.keyMatch s cId d),
      ∀ y ∈ db.rows.filter (fun r => r.keyMatch s cId d), x = y := by
    intro x hx y hy
    rw [List.mem_filter] at hx hy
    obtain ⟨hxs, hxc, hxd⟩ := keyMatch_true.mp hx.2
    obtain ⟨hys, hyc, hyd⟩ := keyMatch_true.mp hy.2
    exact hu x hx.1 y hy.1 (hxs.trans hys.symm) (hxc.trans hyc.symm)
      (hxd.trans hyd.symm)
  rcases hfil : db.rows.filter (fun r => r.keyMatch s cId d) with _ | ⟨a, tl⟩
  · rw [hfil]
    simp
  · rcases tl with _ | ⟨b, tl2⟩
    · rw [hfil]
      simp
    · exfalso
      rw [hfil] at hnd hall
      have hab : a = b := hall a (by simp) b (by simp)
      simp [hab] at hnd

lemma count_key_eq_one {db : DB} (hwf : db.WF) (hu : uniqueKeys db)
    {s cId : Nat} {d : Int}
    (hex : ∃ r ∈ db.rows, r.student = s ∧ r.course = cId ∧ r.date = d) :
    (db.rows.filter (fun r => r.keyMatch s cId d)).length = 1 := by
  obtain ⟨r, hr, hf⟩ := hex
  have hmem : r ∈ db.rows.filter (fun r => r.keyMatch s cId d) :=
    List.mem_filter.mpr ⟨hr, keyMatch_true.mpr hf⟩
  have hpos : 0 < (db.rows.filter (fun r => r.keyMatch s cId d)).length :=
    List.length_pos.mpr (fun hnil => by simp [hnil] at hmem)
  exact Nat.le_antisymm (count_key_le_one hwf hu s cId d) hpos

lemma update_or_create_ok {c : Course} {s : Nat} {d : Int} {status : Bool}
    {user : Nat} {today : Int} {db db1 : DB} {att : AttRow} {created : Bool}
    (hwf : db.WF) (hu : uniqueKeys db)
    (hok : update_or_create c s d status user today db =
      Except.ok (db1, att, created)) :
    db1.WF ∧ uniqueKeys db1 ∧ db1.logs = db.logs ∧
    att ∈ db1.rows ∧ att.student = s ∧ att.course = c.id ∧ att.date = d ∧
    att.status = status ∧
    (∀ r ∈ db.rows, ∃ r2 ∈ db1.rows, r2.pk = r.pk ∧ r2.student = r.student ∧
      r2.course = r.course ∧ r2.date = r.date) ∧
    (∀ r ∈ db.rows, ¬(r.student = s ∧ r.course = c.id ∧ r.date = d) →
      r ∈ db1.rows) := by
  unfold update_or_create at hok
  split at hok
  case h_1 r0 hfind =>
    -- update-in-place branch
    have hr0mem : r0 ∈ db.rows := List.mem_of_find?_eq_some hfind
    have hr0key := List.find?_some hfind
    obtain ⟨h0s, h0c, h0d⟩ := keyMatch_true.mp hr0key
    split at hok
    case h_2 => exact absurd hok (by simp)
    case h_1 herrs =>
      simp only [Except.ok.injEq, Prod.mk.injEq] at hok
      obtain ⟨hdb1, hatt, hcr⟩ := hok
      subst hdb1
      subst hatt
      set r1 : AttRow := { r0 with status := status, markedBy := some user }
        with hr1
      set f : AttRow → AttRow :=
        fun x => if x.pk == r0.pk then r1 else x with hf
      have hpkf : ∀ x : AttRow, (f x).pk = x.pk := by
        intro x
        by_cases h : x.pk = r0.pk
        · simp [hf, h, hr1]
        · simp [hf, h]
      have hkeyf : ∀ x ∈ db.rows, (f x).student = x.student ∧
          (f x).course = x.course ∧ (f x).date = x.date := by
        intro x hx
        by_cases h : x.pk = r0.pk
        · have hx0 : x = r0 := WF.pk_inj hwf hx hr0mem h
          subst hx0
          simp [hf, hr1]
        · simp [hf, h]
      refine ⟨⟨?_, ?_⟩, ?_, rfl, ?_, ?_, ?_, ?_, ?_, ?_, ?_⟩
      · intro r2 hr2
        obtain ⟨x, hx, hfx⟩ := List.mem_map.mp hr2
        rw [← hfx, hpkf]
        exact hwf.1 x hx
      · exact hwf.2.map f (fun a b hab => by rw [hpkf, hpkf]; exact hab)
      · intro a1 h1 a2 h2 hs12 hc12 hd12
        obtain ⟨x1, hx1, hfx1⟩ := List.mem_map.mp h1
        obtain ⟨x2, hx2, hfx2⟩ := List.mem_map.mp h2
        obtain ⟨hks1, hkc1, hkd1⟩ := hkeyf x1 hx1
        obtain ⟨hks2, hkc2, hkd2⟩ := hkeyf x2 hx2
        rw [← hfx1, ← hfx2] at hs12 hc12 hd12 ⊢
        rw [hks1, hks2] at hs12
        rw [hkc1, hkc2] at hc12
        rw [hkd1, hkd2] at hd12
        rw [hu x1 hx1 x2 hx2 hs12 hc12 hd12]
      · have : f r0 = r1 := by simp [hf]
        exact this ▸ List.mem_map_of_mem f hr0mem
      · simp [hr1, h0s]
      · simp [hr1, h0c]
      · simp [hr1, h0d]
      · simp [hr1]
      · intro r hr
        refine ⟨f r, List.mem_map_of_mem f hr, hpkf r, ?_⟩
        obtain ⟨a, b, c'⟩ := hkeyf r hr
        exact ⟨a, b, c'⟩
      · intro r hr hnm
        have hne : r.pk ≠ r0.pk := by
          intro h
          exact hnm ((WF.pk_inj hwf hr hr0mem h) ▸ ⟨h0s, h0c, h0d⟩)
        have : f r = r := by simp [hf, hne]
        exact this ▸ List.mem_map_of_mem f hr
  case h_2 hfind =>
    -- create branch
    have hnone := List.find?_eq_none.mp hfind
    split at hok
    case h_2 => exact absurd hok (by simp)
    case h_1 herrs =>
      simp only [Except.ok.injEq, Prod.mk.injEq] at hok
      obtain ⟨hdb1, hatt, hcr⟩ := hok
      subst hdb1
      subst hatt
      set rn : AttRow := ⟨db.nextPk, s, c.id, d, status, some user⟩ with hrn
      have hfreshpk : ∀ r ∈ db.rows, r.pk ≠ rn.pk := by
        intro r hr
        have := hwf.1 r hr
        simp [hrn]
        omega
      refine ⟨⟨?_, ?_⟩, ?_, rfl, ?_, by simp [hrn], by simp [hrn],
        by simp [hrn], by simp [hrn], ?_, ?_⟩
      · intro r2 hr2
        rcases List.mem_append.mp hr2 with h | h
        · exact Nat.lt_succ_of_lt (hwf.1 r2 h)
        · rw [List.mem_singleton.mp h]
          simp [hrn]
      · rw [List.pairwise_append]
        refine ⟨hwf.2, by simp, ?_⟩
        intro a ha b hb
        rw [List.mem_singleton.mp hb]
        exact hfreshpk a ha
      · intro a1 h1 a2 h2 hs12 hc12 hd12
        rcases List.mem_append.mp h1 with ha1 | ha1 <;>
          rcases List.mem_append.mp h2 with ha2 | ha2
        · exact hu a1 ha1 a2 ha2 hs12 hc12 hd12
        · exfalso
          rw [List.mem_singleton.mp ha2] at hs12 hc12 hd12
          exact hnone a1 ha1 (keyMatch_true.mpr
            ⟨by simpa [hrn] using hs12, by simpa [hrn] using hc12,
             by simpa [hrn] using hd12⟩)
        · exfalso
          rw [List.mem_singleton.mp ha1] at hs12 hc12 hd12
          exact hnone a2 ha2 (keyMatch_true.mpr
            ⟨by simpa [hrn] using hs12.symm, by simpa [hrn] using hc12.symm,
             by simpa [hrn] using hd12.symm⟩)
        · rw [List.mem_singleton.mp ha1, List.mem_singleton.mp ha2]
      · exact List.mem_append.mpr (Or.inr (List.mem_singleton.mpr rfl))
      · intro r hr
        exact ⟨r, List.mem_append.mpr (Or.inl hr), rfl, rfl, rfl, rfl⟩
      · intro r hr _
        exact List.mem_append.mpr (Or.inl hr)

lemma update_or_create_succeeds {c : Course} {s : Nat} {d : Int}
    {status : Bool} {user : Nat} {today : Int} {db : DB}
    (hu : uniqueKeys db) (hs : s ∈ c.students) (hd : d ≤ today) :
    ∃ out, update_or_create c s d status user today db = Except.ok out := by
  have hclean : Attendance.clean c s (some d) today = [] := by
    simp [Attendance.clean, hs, not_lt.mpr hd]
  rcases hfind : db.rows.find? (fun r => r.keyMatch s c.id d) with _ | r0
  · have hc : ¬ (db.rows.any
        (fun r => r.keyMatch s c.id d && (none != some r.pk)) = true) := by
      rw [List.any_eq_true]
      rintro ⟨r, hr, hp⟩
      rw [Bool.and_eq_true] at hp
      exact (List.find?_eq_none.mp hfind) r hr hp.1
    have hvu : validate_unique db none s c.id d = [] := by
      rw [validate_unique, if_neg hc]
    simp only [update_or_create, hfind, hclean, hvu, List.nil_append]
    exact ⟨_, rfl⟩
  · have hr0mem : r0 ∈ db.rows := List.mem_of_find?_eq_some hfind
    have hr0key := List.find?_some hfind
    obtain ⟨h0s, h0c, h0d⟩ := keyMatch_true.mp hr0key
    have hc : ¬ (db.rows.any
        (fun r => r.keyMatch s c.id d && (some r0.pk != some r.pk)) = true) := by
      rw [List.any_eq_true]
      rintro ⟨r, hr, hp⟩
      rw [Bool.and_eq_true] at hp
      obtain ⟨hkm, hne⟩ := hp
      obtain ⟨hs1, hc1, hd1⟩ := keyMatch_true.mp hkm
      have hrr0 : r = r0 := hu r hr r0 hr0mem (hs1.trans h0s.symm)
        (hc1.trans h0c.symm) (hd1.trans h0d.symm)
      rw [hrr0] at hne
      simp at hne
    have hvu : validate_unique db (some r0.pk) s c.id d = [] := by
      rw [validate_unique, if_neg hc]
    simp only [update_or_create, hfind, hclean, hvu, List.nil_append]
    exact ⟨_, rfl⟩

lemma log_change_rows (action att usr old new db) :
    (log_attendance_change action att usr old new db).rows = db.rows := rfl

lemma log_change_nextPk (action att usr old new db) :
    (log_attendance_change action att usr old new db).nextPk = db.nextPk := rfl

lemma log_change_logs (action att usr old new db) :
    (log_attendance_change action att usr old new db).logs =
      ({ attendance := att.map (fun a => a.pk), action := action, user := usr,
         student := att.map (fun a => a.student),
         course := att.map (fun a => a.course),
         date := att.map (fun a => a.date),
         old_status := old, new_status := new } : AuditEntry) :: db.logs := rfl

lemma WF_log_change {action att usr old new db} :
    (log_attendance_change action att usr old new db).WF ↔ db.WF := Iff.rfl

lemma uniqueKeys_log_change {action att usr old new db} :
    uniqueKeys (log_attendance_change action att usr old new db) ↔
      uniqueKeys db := Iff.rfl

lemma exists_pre_cons {L1 L2 : List AuditEntry} {e : AuditEntry}
    {pre : List AuditEntry} {n : Nat} (h : L1 = pre ++ e :: L2)
    (hl : pre.length = n) :
    ∃ pre2, L1 = pre2 ++ L2 ∧ pre2.length = n + 1 :=
  ⟨pre ++ [e], by rw [h]; simp, by simp [hl]⟩

lemma bulk_loop_ok (c : Course) (d : Int) (sub : List Nat) (u : Nat)
    (today : Int) (failAt : Option Nat) (ss : List Nat) :
    ∀ (i : Nat) (db db' : DB),
      bulk_attendance_loop c d sub u today failAt ss i db = Except.ok db' →
      db.WF → uniqueKeys db →
      (db'.WF ∧ uniqueKeys db' ∧
        (∃ pre, db'.logs = pre ++ db.logs ∧ pre.length = ss.length) ∧
        (∀ r ∈ db.rows, ∃ r2 ∈ db'.rows, r2.pk = r.pk ∧
          r2.student = r.student ∧ r2.course = r.course ∧ r2.date = r.date) ∧
        (∀ r ∈ db.rows, ¬(r.student ∈ ss ∧ r.course = c.id ∧ r.date = d) →
          r ∈ db'.rows) ∧
        (ss.Nodup → ∀ s ∈ ss, ∃ r2 ∈ db'.rows, r2.student = s ∧
          r2.course = c.id ∧ r2.date = d ∧ r2.status = sub.contains s)) := by
  induction ss with
  | nil =>
      intro i db db' hok hwf hu
      simp only [bulk_attendance_loop, Except.ok.injEq] at hok
      subst hok
      exact ⟨hwf, hu, ⟨[], by simp⟩, fun r hr => ⟨r, hr, rfl, rfl, rfl, rfl⟩,
        fun r hr _ => hr, fun _ s hs => absurd hs (List.not_mem_nil s)⟩
  | cons s rest ih =>
      intro i db db' hok hwf hu
      simp only [bulk_attendance_loop] at hok
      split at hok
      · exact absurd hok (by simp)
      · split at hok
        case h_1 e heq => exact absurd hok (by simp)
        case h_2 db1 att created heq =>
          obtain ⟨hwf1, hu1, hlogs1, hattmem, hatts, hattc, hattd, hattst,
            hframe1, hframe2⟩ := update_or_create_ok hwf hu heq
          have hres := ih (i + 1) _ db' hok (WF_log_change.mpr hwf1)
            (uniqueKeys_log_change.mpr hu1)
          simp only [log_change_rows, log_change_logs] at hres
          obtain ⟨hwf', hu', ⟨pre, hpre, hprelen⟩, hchain, hframe, hper⟩ := hres
          refine ⟨hwf', hu', ?_, ?_, ?_, ?_⟩
          · rw [hlogs1] at hpre
            obtain ⟨pre2, hp2, hl2⟩ := exists_pre_cons hpre hprelen
            exact ⟨pre2, hp2, by simp [hl2]⟩
          · intro r hr
            obtain ⟨r2, hr2, hpk2, hs2, hc2, hd2⟩ := hframe1 r hr
            obtain ⟨r3, hr3, hpk3, hs3, hc3, hd3⟩ := hchain r2 hr2
            exact ⟨r3, hr3, hpk3.trans hpk2, hs3.trans hs2, hc3.trans hc2,
              hd3.trans hd2⟩
          · intro r hr hnm
            have hnm1 : ¬(r.student = s ∧ r.course = c.id ∧ r.date = d) := by
              rintro ⟨ha, hb, hc2⟩
              exact hnm ⟨ha ▸ List.mem_cons_self s rest, hb, hc2⟩
            have hr1 : r ∈ db1.rows := hframe2 r hr hnm1
            refine hframe r hr1 ?_
            rintro ⟨ha, hb, hc2⟩
            exact hnm ⟨List.mem_cons_of_mem s ha, hb, hc2⟩
          · intro hnd s0 hs0
            rcases List.mem_cons.mp hs0 with h0 | h0
            · subst h0
              refine ⟨att, hframe att hattmem ?_, hatts, hattc, hattd, hattst⟩
              rintro ⟨ha, _, _⟩
              rw [hatts] at ha
              exact (List.nodup_cons.mp hnd).1 ha
            · exact hper (List.nodup_cons.mp hnd).2 s0 h0

lemma bulk_loop_no_fail (c : Course) (d : Int) (sub : List Nat) (u : Nat)
    (today : Int) (ss : List Nat) :
    ∀ (i : Nat) (db : DB), db.WF → uniqueKeys db →
      (∀ s ∈ ss, s ∈ c.students) → d ≤ today →
      ∃ db', bulk_attendance_loop c d sub u today none ss i db =
        Except.ok db' := by
  induction ss with
  | nil =>
      intro i db _ _ _ _
      exact ⟨db, by simp [bulk_attendance_loop]⟩
  | cons s rest ih =>
      intro i db hwf hu henr hd
      obtain ⟨⟨db1, att, created⟩, houc⟩ :=
        @update_or_create_succeeds c s d (sub.contains s) u today db
          hu (henr s (List.mem_cons_self s rest)) hd
      obtain ⟨hwf1, hu1, _, _, _, _, _, _, _, _⟩ :=
        update_or_create_ok hwf hu houc
      obtain ⟨db', hloop⟩ := ih (i + 1)
        (log_attendance_change
          (if created then AuditAction.create else AuditAction.update)
          (some att) (some u)
          ((db1.rows.find? (fun r => r.keyMatch s c.id d && r.pk != att.pk)).map
            (fun r => r.status))
          (some (sub.contains s)) db1)
        (WF_log_change.mpr hwf1) (uniqueKeys_log_change.mpr hu1)
        (fun s2 hs2 => henr s2 (List.mem_cons_of_mem s hs2)) hd
      refine ⟨db', ?_⟩
      simp only [bulk_attendance_loop, houc]
      simpa using hloop

lemma bool_or_and_distrib (a b c2 d2 : Bool) :
    ((a || b) && c2 && d2) = (a && c2 && d2 || b && c2 && d2) := by
  cases a <;> cases b <;> cases c2 <;> cases d2 <;> rfl

lemma length_filter_or_disjoint {α : Type} (l : List α) (p q : α → Bool)
    (h : ∀ a ∈ l, ¬(p a = true ∧ q a = true)) :
    (l.filter (fun a => p a || q a)).length =
      (l.filter p).length + (l.filter q).length := by
  induction l with
  | nil => simp
  | cons x xs ih =>
      have hx := h x (List.mem_cons_self x xs)
      have ih2 := ih (fun a ha => h a (List.mem_cons_of_mem x ha))
      cases hp : p x <;> cases hq : q x
      · simp [List.filter_cons, hp, hq, ih2]
      · simp [List.filter_cons, hp, hq, ih2]
        omega
      · simp [List.filter_cons, hp, hq, ih2]
        omega
      · exact absurd ⟨hp, hq⟩ hx

lemma roster_filter_count {db : DB} (hwf : db.WF) (hu : uniqueKeys db)
    {cId : Nat} {d : Int} :
    ∀ {ss : List Nat}, ss.Nodup →
      (∀ s ∈ ss, ∃ r ∈ db.rows, r.student = s ∧ r.course = cId ∧ r.date = d) →
      (db.rows.filter (fun r => ss.contains r.student && r.course == cId &&
        r.date == d)).length = ss.length := by
  intro ss
  induction ss with
  | nil =>
      intro _ _
      simp
  | cons s rest ih =>
      intro hnd hex
      have hpt : ∀ r ∈ db.rows,
          ((s :: rest).contains r.student && r.course == cId &&
            r.date == d) =
          (r.keyMatch s cId d ||
            (rest.contains r.student && r.course == cId && r.date == d)) := by
        intro r _
        simp only [List.contains_cons, AttRow.keyMatch]
        exact bool_or_and_distrib _ _ _ _
      rw [List.filter_congr hpt,
        length_filter_or_disjoint db.rows (fun r => r.keyMatch s cId d)
          (fun r => rest.contains r.student && r.course == cId && r.date == d)]
      · rw [count_key_eq_one hwf hu (hex s (List.mem_cons_self s rest)),
          ih (List.nodup_cons.mp hnd).2
            (fun s2 h2 => hex s2 (List.mem_cons_of_mem s h2))]
        simp [Nat.add_comm]
      · intro r _ h12
        obtain ⟨h1, h2⟩ := h12
        obtain ⟨ha, _, _⟩ := keyMatch_true.mp h1
        rw [Bool.and_eq_true, Bool.and_eq_true] at h2
        have hmem : r.student ∈ rest := by simpa using h2.1.1
        rw [ha] at hmem
        exact (List.nodup_cons.mp hnd).1 hmem

lemma insert_fresh_wf {db : DB} (hwf : db.WF) (hu : uniqueKeys db)
    {s cId : Nat} {d : Int} {status : Bool} {mb : Option Nat}
    (hfresh : ∀ r ∈ db.rows, ¬(r.student = s ∧ r.course = cId ∧ r.date = d))
    (logs2 : List AuditEntry) :
    (⟨db.rows ++ [⟨db.nextPk, s, cId, d, status, mb⟩], db.nextPk + 1,
        logs2⟩ : DB).WF ∧
      uniqueKeys ⟨db.rows ++ [⟨db.nextPk, s, cId, d, status, mb⟩],
        db.nextPk + 1, logs2⟩ := by
  constructor
  · constructor
    · intro r2 hr2
      rcases List.mem_append.mp hr2 with h | h
      · exact Nat.lt_succ_of_lt (hwf.1 r2 h)
      · rw [List.mem_singleton.mp h]
        exact Nat.lt_succ_self _
    · rw [List.pairwise_append]
      refine ⟨hwf.2, by simp, ?_⟩
      intro a ha b hb
      rw [List.mem_singleton.mp hb]
      exact Nat.ne_of_lt (hwf.1 a ha)
  · intro a1 h1 a2 h2 hs12 hc12 hd12
    rcases List.mem_append.mp h1 with ha1 | ha1 <;>
      rcases List.mem_append.mp h2 with ha2 | ha2
    · exact hu a1 ha1 a2 ha2 hs12 hc12 hd12
    · exfalso
      rw [List.mem_singleton.mp ha2] at hs12 hc12 hd12
      exact hfresh a1 ha1 ⟨hs12, hc12, hd12⟩
    · exfalso
      rw [List.mem_singleton.mp ha1] at hs12 hc12 hd12
      exact hfresh a2 ha2 ⟨hs12.symm, hc12.symm, hd12.symm⟩
    · rw [List.mem_singleton.mp ha1, List.mem_singleton.mp ha2]

lemma mark_attendance_preserves {c : Course} {s : Nat} {d : Int}
    {status : Bool} {user : Nat} {today : Int} {db : DB}
    (hwf : db.WF) (hu : uniqueKeys db) :
    (mark_attendance c s d status user today db).1.WF ∧
      uniqueKeys (mark_attendance c s d status user today db).1 := by
  rcases hE : (if d > today then [VErr.futureDate] else []) ++
      Attendance.clean c s (if d > today then none else some d) today ++
      (if d > today then [] else validate_unique db none s c.id d)
    with _ | ⟨e, es⟩
  · obtain ⟨hfm, huniq⟩ := List.append_eq_nil.mp hE
    obtain ⟨hform, hmodel⟩ := List.append_eq_nil.mp hfm
    by_cases hd : d > today
    · rw [if_pos hd] at hform
      exact absurd hform (by simp)
    · rw [if_neg hd] at huniq
      have hfresh : ∀ r ∈ db.rows,
          ¬(r.student = s ∧ r.course = c.id ∧ r.date = d) := by
        intro r hr hk
        rw [validate_unique] at huniq
        by_cases hany : (db.rows.any
            (fun r => r.keyMatch s c.id d && (none != some r.pk))) = true
        · rw [if_pos hany] at huniq
          exact absurd huniq (by simp)
        · rw [List.any_eq_true] at hany
          exact hany ⟨r, hr, by simp [keyMatch_true.mpr hk]⟩
      have hgoal := @insert_fresh_wf db hwf hu s c.id d status (some user)
        hfresh
        (({ attendance := some db.nextPk, action := AuditAction.create,
            user := some user, student := some s, course := some c.id,
            date := some d, old_status := none,
            new_status := some status } : AuditEntry) :: db.logs)
      simp only [mark_attendance, hE]
      exact hgoal
  · simp only [mark_attendance, hE]
    exact ⟨hwf, hu⟩

lemma admin_save_preserves {c : Course} {pk s : Nat} {d : Int}
    {status : Bool} {today : Int} {db : DB}
    (hwf : db.WF) (hu : uniqueKeys db) :
    (admin_save_attendance c pk s d status today db).1.WF ∧
      uniqueKeys (admin_save_attendance c pk s d status today db).1 := by
  rcases hE : Attendance.clean c s (some d) today ++
      validate_unique db (some pk) s c.id d with _ | ⟨e, es⟩
  · obtain ⟨hmodel, huniq⟩ := List.append_eq_nil.mp hE
    have hkeypk : ∀ r ∈ db.rows,
        r.student = s ∧ r.course = c.id ∧ r.date = d → r.pk = pk := by
      intro r hr hk
      rw [validate_unique] at huniq
      by_cases hany : (db.rows.any
          (fun r => r.keyMatch s c.id d && (some pk != some r.pk))) = true
      · rw [if_pos hany] at huniq
        exact absurd huniq (by simp)
      · rw [List.any_eq_true] at hany
        by_contra hne
        exact hany ⟨r, hr, by
          simp [keyMatch_true.mpr hk]
          exact fun h => hne h.symm⟩
    have hpkg : ∀ x : AttRow,
        ((if x.pk == pk then { x with student := s, course := c.id, date := d, status := status } else x) : AttRow).pk = x.pk := by
      intro x
      by_cases h : x.pk = pk
      · rw [if_pos (by simpa using h)]
      · rw [if_neg (by simpa using h)]
    simp only [admin_save_attendance, hE]
    refine ⟨⟨?_, ?_⟩, ?_⟩
    · intro r2 hr2
      obtain ⟨x, hx, hfx⟩ := List.mem_map.mp hr2
      rw [← hfx, hpkg]
      exact hwf.1 x hx
    · exact hwf.2.map _ (fun a b hab => by rw [hpkg, hpkg]; exact hab)
    · intro a1 h1 a2 h2 hs12 hc12 hd12
      obtain ⟨x1, hx1, hfx1⟩ := List.mem_map.mp h1
      obtain ⟨x2, hx2, hfx2⟩ := List.mem_map.mp h2
      by_cases e1 : x1.pk = pk <;> by_cases e2 : x2.pk = pk
      · have hx12 : x1 = x2 := WF.pk_inj hwf hx1 hx2 (e1.trans e2.symm)
        rw [← hfx1, ← hfx2, hx12]
      · exfalso
        have ha1 : a1 = ({ x1 with student := s, course := c.id, date := d, status := status } : AttRow) := by
          rw [← hfx1, if_pos (by simpa using e1)]
        have ha2 : a2 = x2 := by
          rw [← hfx2, if_neg (by simpa using e2)]
        apply e2
        apply hkeypk x2 hx2
        refine ⟨?_, ?_, ?_⟩
        · rw [← ha2, ← hs12, ha1]
        · rw [← ha2, ← hc12, ha1]
        · rw [← ha2, ← hd12, ha1]
      · exfalso
        have ha2 : a2 = ({ x2 with student := s, course := c.id, date := d, status := status } : AttRow) := by
          rw [← hfx2, if_pos (by simpa using e2)]
        have ha1 : a1 = x1 := by
          rw [← hfx1, if_neg (by simpa using e1)]
        apply e1
        apply hkeypk x1 hx1
        refine ⟨?_, ?_, ?_⟩
        · rw [← ha1, hs12, ha2]
        · rw [← ha1, hc12, ha2]
        · rw [← ha1, hd12, ha2]
      · have ha1 : a1 = x1 := by
          rw [← hfx1, if_neg (by simpa using e1)]
        have ha2 : a2 = x2 := by
          rw [← hfx2, if_neg (by simpa using e2)]
        rw [ha1, ha2] at hs12 hc12 hd12 ⊢
        exact hu x1 hx1 x2 hx2 hs12 hc12 hd12
  · simp only [admin_save_attendance, hE]
    exact ⟨hwf, hu⟩

lemma step_preserves {db db' : DB} (h : Step db db') (hwf : db.WF)
    (hu : uniqueKeys db) : db'.WF ∧ uniqueKeys db' := by
  cases h with
  | mark c s d status user today => exact mark_attendance_preserves hwf hu
  | adminEdit c pk s d status today => exact admin_save_preserves hwf hu
  | bulk c d submitted user today failAt =>
      by_cases hd : d > today
      · simpa [bulk_attendance, hd] using And.intro hwf hu
      · rcases hloop : bulk_attendance_loop c d submitted user today failAt
            c.students 0 db with e | db1
        · simpa [bulk_attendance, hd, hloop] using And.intro hwf hu
        · have hres := bulk_loop_ok c d submitted user today failAt
            c.students 0 db db1 hloop hwf hu
          simpa [bulk_attendance, hd, hloop] using And.intro hres.1 hres.2.1

/-- C1: at most one Attendance row per (student, course, date): starting from
a store satisfying the uniqueness invariant, any sequence of
attendance-writing operations (single mark, bulk mark, admin edit) preserves
it, so no two rows ever share a key. -/
theorem attendance_uniqueness_invariant (db db' : DB)
    (hreach : Relation.ReflTransGen Step db db')
    (hwf : db.WF) (hu : uniqueKeys db) :
    uniqueKeys db' ∧ db'.WF ∧
      ∀ (s cId : Nat) (d : Int),
        (db'.rows.filter (fun r => r.keyMatch s cId d)).length ≤ 1 := by
  have hmain : db'.WF ∧ uniqueKeys db' := by
    induction hreach with
    | refl => exact ⟨hwf, hu⟩
    | tail _ hstep ih => exact step_preserves hstep ih.1 ih.2
  exact ⟨hmain.2, hmain.1, fun s cId d => count_key_le_one hmain.1 hmain.2 s cId d⟩

/-- Witness for C1: a bulk mark of course ⟨7, [1, 2]⟩ from the empty store
yields a store where every (student, course, date) key has at most one row. -/
theorem attendance_uniqueness_invariant_witness :
    DB.empty.WF ∧ uniqueKeys DB.empty ∧
      (uniqueKeys (bulk_attendance ⟨7, [1, 2]⟩ 10 [1] 5 10 none DB.empty).1 ∧
        (bulk_attendance ⟨7, [1, 2]⟩ 10 [1] 5 10 none DB.empty).1.WF ∧
        ∀ (s cId : Nat) (d : Int),
          ((bulk_attendance ⟨7, [1, 2]⟩ 10 [1] 5 10 none DB.empty).1.rows.filter
            (fun r => r.keyMatch s cId d)).length ≤ 1) := by
  have h1 : DB.empty.WF :=
    ⟨fun r hr => absurd hr (List.not_mem_nil r), List.Pairwise.nil⟩
  have h2 : uniqueKeys DB.empty := fun r hr => absurd hr (List.not_mem_nil r)
  exact ⟨h1, h2, attendance_uniqueness_invariant DB.empty _
    (Relation.ReflTransGen.single
      (Step.bulk ⟨7, [1, 2]⟩ 10 [1] 5 10 none DB.empty)) h1 h2⟩

/-- C2: bulk-marking a roster of N students is all-or-nothing: on success
there are exactly N rows for the roster's keys, each reflecting its submitted
status, N new AuditLog entries are appended, and every pre-existing row
survives (no row is deleted); on any failure the store is exactly as before
the call. -/
theorem bulk_attendance_atomic (c : Course) (d : Int) (submitted : List Nat)
    (user : Nat) (today : Int) (failAt : Option Nat) (db : DB)
    (hwf : db.WF) (hu : uniqueKeys db) (hnd : c.students.Nodup) :
    ((∀ e, (bulk_attendance c d submitted user today failAt db).2 =
        Except.error e →
      (bulk_attendance c d submitted user today failAt db).1 = db) ∧
     (∀ n, (bulk_attendance c d submitted user today failAt db).2 =
        Except.ok n →
      n = c.students.length ∧
      (∀ s ∈ c.students,
        ∃ r ∈ (bulk_attendance c d submitted user today failAt db).1.rows,
          r.student = s ∧ r.course = c.id ∧ r.date = d ∧
            r.status = submitted.contains s) ∧
      ((bulk_attendance c d submitted user today failAt db).1.rows.filter
        (fun r => c.students.contains r.student && r.course == c.id &&
          r.date == d)).length = c.students.length ∧
      (∃ pre, (bulk_attendance c d submitted user today failAt db).1.logs =
        pre ++ db.logs ∧ pre.length = c.students.length) ∧
      (∀ r ∈ db.rows,
        ∃ r2 ∈ (bulk_attendance c d submitted user today failAt db).1.rows,
          r2.pk = r.pk ∧ r2.student = r.student ∧ r2.course = r.course ∧
            r2.date = r.date))) := by
  by_cases hd : d > today
  · constructor
    · intro e _
      simp [bulk_attendance, hd]
    · intro n hn
      simp [bulk_attendance, hd] at hn
  · rcases hloop : bulk_attendance_loop c d submitted user today failAt
        c.students 0 db with e | db1
    · constructor
      · intro e2 _
        simp [bulk_attendance, hd, hloop]
      · intro n hn
        simp [bulk_attendance, hd, hloop] at hn
    · obtain ⟨hwf', hu', hlogs, hchain, _, hper⟩ :=
        bulk_loop_ok c d submitted user today failAt c.students 0 db db1
          hloop hwf hu
      have h1 : (bulk_attendance c d submitted user today failAt db).1 = db1 := by
        simp [bulk_attendance, hd, hloop]
      constructor
      · intro e he
        simp [bulk_attendance, hd, hloop] at he
      · intro n hn
        have hnn : n = c.students.length := by
          simp [bulk_attendance, hd, hloop] at hn
          exact hn.symm
        rw [h1]
        refine ⟨hnn, hper hnd, ?_, hlogs, hchain⟩
        exact roster_filter_count hwf' hu' hnd
          (fun s hs => by
            obtain ⟨r2, hr2, hs2, hc2, hd2, _⟩ := hper hnd s hs
            exact ⟨r2, hr2, hs2, hc2, hd2⟩)

/-- Witness for C2 at a concrete input: roster [1, 2], student 1 submitted
present, applied to the empty store on a valid date. -/
theorem bulk_attendance_atomic_witness :
    DB.empty.WF ∧ uniqueKeys DB.empty ∧ ([1, 2] : List Nat).Nodup ∧
    ((∀ e, (bulk_attendance ⟨7, [1, 2]⟩ 10 [1] 5 10 none DB.empty).2 =
        Except.error e →
      (bulk_attendance ⟨7, [1, 2]⟩ 10 [1] 5 10 none DB.empty).1 = DB.empty) ∧
     (∀ n, (bulk_attendance ⟨7, [1, 2]⟩ 10 [1] 5 10 none DB.empty).2 =
        Except.ok n →
      n = (⟨7, [1, 2]⟩ : Course).students.length ∧
      (∀ s ∈ (⟨7, [1, 2]⟩ : Course).students,
        ∃ r ∈ (bulk_attendance ⟨7, [1, 2]⟩ 10 [1] 5 10 none DB.empty).1.rows,
          r.student = s ∧ r.course = (⟨7, [1, 2]⟩ : Course).id ∧
            r.date = 10 ∧ r.status = ([1] : List Nat).contains s) ∧
      ((bulk_attendance ⟨7, [1, 2]⟩ 10 [1] 5 10 none DB.empty).1.rows.filter
        (fun r => (⟨7, [1, 2]⟩ : Course).students.contains r.student &&
          r.course == (⟨7, [1, 2]⟩ : Course).id && r.date == 10)).length =
        (⟨7, [1, 2]⟩ : Course).students.length ∧
      (∃ pre,
        (bulk_attendance ⟨7, [1, 2]⟩ 10 [1] 5 10 none DB.empty).1.logs =
          pre ++ DB.empty.logs ∧
        pre.length = (⟨7, [1, 2]⟩ : Course).students.length) ∧
      (∀ r ∈ DB.empty.rows,
        ∃ r2 ∈ (bulk_attendance ⟨7, [1, 2]⟩ 10 [1] 5 10 none DB.empty).1.rows,
          r2.pk = r.pk ∧ r2.student = r.student ∧ r2.course = r.course ∧
            r2.date = r.date))) := by
  have h1 : DB.empty.WF :=
    ⟨fun r hr => absurd hr (List.not_mem_nil r), List.Pairwise.nil⟩
  have h2 : uniqueKeys DB.empty := fun r hr => absurd hr (List.not_mem_nil r)
  exact ⟨h1, h2, by decide,
    bulk_attendance_atomic ⟨7, [1, 2]⟩ 10 [1] 5 10 none DB.empty h1 h2
      (by decide)⟩

/-- C10: on a valid date, bulk marking touches exactly the enrolled roster:
it reports the enrolled-student count as marked, and every enrolled student
gets a row whose status is exactly the presence of their checkbox in the
submission — a student missing from the submission is recorded absent. -/
theorem bulk_marks_whole_roster (c : Course) (d : Int) (submitted : List Nat)
    (user : Nat) (today : Int) (db : DB)
    (hwf : db.WF) (hu : uniqueKeys db) (hnd : c.students.Nodup)
    (hd : d ≤ today) :
    (bulk_attendance c d submitted user today none db).2 =
      Except.ok c.students.length ∧
    ∀ s ∈ c.students,
      ∃ r ∈ (bulk_attendance c d submitted user today none db).1.rows,
        r.student = s ∧ r.course = c.id ∧ r.date = d ∧
          r.status = submitted.contains s := by
  obtain ⟨db1, hloop⟩ := bulk_loop_no_fail c d submitted user today
    c.students 0 db hwf hu (fun s hs => hs) hd
  obtain ⟨_, _, _, _, _, hper⟩ := bulk_loop_ok c d submitted user today none
    c.students 0 db db1 hloop hwf hu
  have h1 : (bulk_attendance c d submitted user today none db).1 = db1 := by
    simp [bulk_attendance, not_lt.mpr hd, hloop]
  constructor
  · simp [bulk_attendance, not_lt.mpr hd, hloop]
  · rw [h1]
    exact hper hnd

/-- Witness for C10: roster [1, 2] with only student 1 checked, marked on the
empty store: the call reports 2 marked and records student 2 as absent. -/
theorem bulk_marks_whole_roster_witness :
    DB.empty.WF ∧ uniqueKeys DB.empty ∧ ([1, 2] : List Nat).Nodup ∧
      (10 : Int) ≤ 10 ∧
    ((bulk_attendance ⟨7, [1, 2]⟩ 10 [1] 5 10 none DB.empty).2 =
      Except.ok (⟨7, [1, 2]⟩ : Course).students.length ∧
    ∀ s ∈ (⟨7, [1, 2]⟩ : Course).students,
      ∃ r ∈ (bulk_attendance ⟨7, [1, 2]⟩ 10 [1] 5 10 none DB.empty).1.rows,
        r.student = s ∧ r.course = (⟨7, [1, 2]⟩ : Course).id ∧
          r.date = 10 ∧ r.status = ([1] : List Nat).contains s) := by
  have h1 : DB.empty.WF :=
    ⟨fun r hr => absurd hr (List.not_mem_nil r), List.Pairwise.nil⟩
  have h2 : uniqueKeys DB.empty := fun r hr => absurd hr (List.not_mem_nil r)
  exact ⟨h1, h2, by decide, by decide,
    bulk_marks_whole_roster ⟨7, [1, 2]⟩ 10 [1] 5 10 DB.empty h1 h2
      (by decide) (by decide)⟩
